import Mathlib

/-!
Verification of the OCL (on-chip loader) flash-programming protocol engine
(`src/unnamed/part_000`, the OpenOCD `ocl` flash driver).

The driver exchanges 32-bit command/response words with a resident loader on
the target over a DCC-style debug channel.  The development below embeds:

* the Block Packer of `ocl_write` (byte-to-word packing with 0xFF filler and
  a running XOR checksum),
* the chunking loop of `ocl_write`,
* `ocl_erase`, `ocl_probe`, `ocl_auto_probe` and their precondition checks,
* the external Transport Port collaborator (`embeddedice_send`,
  `embeddedice_handshake`, `embeddedice_receive`), modelled as outcome
  streams with a log of the blocks sent.

Machine words are `Nat` values; reductions modulo `2 ^ 32` appear exactly
where the C performs 32-bit unsigned arithmetic that can wrap.
-/

/-- Modelled from the spec: the opcode and sentinel words come from `ocl.h`,
which is not under `src`.  The spec fixes their roles (probe / erase-all /
erase-block / flash-block opcodes, a generic "done" sentinel, a fixed
checksum seed) but not their numeric values, so distinct placeholder values
are used; no claim depends on the particular numbers. -/
def OCL_CMD_DONE : Nat := 0x0ACD0000

/-- Modelled from the spec: erase-all opcode word (see `OCL_CMD_DONE`). -/
def OCL_ERASE_ALL : Nat := 0x0CEA0000

/-- Modelled from the spec: erase-block opcode word (see `OCL_CMD_DONE`). -/
def OCL_ERASE_BLOCK : Nat := 0x0CEB0000

/-- Modelled from the spec: flash-block opcode word, bit-packed with the
chunk's run length in its low bits (see `OCL_CMD_DONE`). -/
def OCL_FLASH_BLOCK : Nat := 0x0CFB0000

/-- Modelled from the spec: probe opcode word (see `OCL_CMD_DONE`). -/
def OCL_PROBE : Nat := 0x0CBE0000

/-- Modelled from the spec: the fixed initial constant seeding the XOR
checksum accumulator (see `OCL_CMD_DONE`). -/
def OCL_CHKS_INIT : Nat := 0xC100CD0C

/-- Modelled from the spec: the handshake control bit passed to the
Transport Port (from `embeddedice.h`, not under `src`). -/
def EICE_COMM_CTRL_WBIT : Nat := 1

/-- Error taxonomy of the driver (spec section 7).  `TRANSPORT` carries the
raw return value propagated verbatim from a failing transport primitive. -/
inductive OclErr where
  | BANK_NOT_PROBED
  | TARGET_NOT_RUNNING
  | BANK_INVALID
  | OPERATION_FAILED
  | TRANSPORT (code : Int)
  deriving DecidableEq, Repr

/-- Target run state; the driver only distinguishes `RUNNING` from the rest
(`bank->target->state != TARGET_RUNNING`). -/
inductive TargetState where
  | RUNNING
  | HALTED
  | RESET
  deriving DecidableEq, Repr

/-- One entry of `bank->sectors` (`struct flash_sector`); the tri-states
`is_erased` and `is_protected` use the source's `-1` for "unknown". -/
structure FlashSector where
  offset : Nat
  size : Nat
  is_erased : Int
  is_protected : Int
  deriving DecidableEq, Repr

/-- The fields of `struct flash_bank` that the driver reads or writes. -/
structure FlashBank where
  base : Nat
  size : Nat
  num_sectors : Nat
  sectors : List FlashSector
  target_state : TargetState
  deriving DecidableEq, Repr

/-- `struct ocl_priv` (lines 29-34): device buffer length and alignment. -/
structure OclPriv where
  buflen : Nat
  bufalign : Nat
  deriving DecidableEq, Repr

/-- Outcome of one transport primitive call: success, or failure with the
raw return code. -/
inductive TxOutcome where
  | ok
  | fail (code : Int)
  deriving DecidableEq, Repr

/-- Modelled from the spec: behaviour of the Transport Port collaborator for
one operation: the outcome of each successive send / handshake / receive
call (defaulting to success when the stream is exhausted) and the word
delivered by each receive. -/
structure LinkEnv where
  sendOut : List TxOutcome
  hsOut : List TxOutcome
  recvOut : List (TxOutcome × Nat)
  deriving DecidableEq, Repr

/-- Transport Port state threaded through an operation: the remaining
environment plus the log of word blocks passed to `embeddedice_send`. -/
structure Link where
  env : LinkEnv
  sent : List (List Nat)
  deriving DecidableEq, Repr

/-- Modelled from the spec: `embeddedice_send` (external collaborator, not
under `src`): sends a block of 32-bit words; the call is logged and its
outcome drawn from the environment. -/
def embeddedice_send (lk : Link) (block : List Nat) : TxOutcome × Link :=
  (lk.env.sendOut.headD .ok,
   { env := { lk.env with sendOut := lk.env.sendOut.tail },
     sent := lk.sent ++ [block] })

/-- Modelled from the spec: `embeddedice_handshake` (external collaborator):
polls a control bit with a timeout in ms (`0` = wait indefinitely). -/
def embeddedice_handshake (lk : Link) (bit timeout : Nat) : TxOutcome × Link :=
  (lk.env.hsOut.headD .ok,
   { lk with env := { lk.env with hsOut := lk.env.hsOut.tail } })

/-- Modelled from the spec: `embeddedice_receive` of a single word (every
receive in the driver reads exactly one word). -/
def embeddedice_receive1 (lk : Link) : TxOutcome × Nat × Link :=
  ((lk.env.recvOut.headD (.ok, 0)).1,
   (lk.env.recvOut.headD (.ok, 0)).2,
   { lk with env := { lk.env with recvOut := lk.env.recvOut.tail } })

/-- Conversion of a C `int` value to the `uint32_t` stored into a DCC word
(`dcc_buffer[1] = first` in `ocl_erase`). -/
def u32ofInt (z : Int) : Nat := (z % (2 ^ 32 : Int)).toNat

/-- State of the packing loop of `ocl_write` (lines 163-196): the word being
filled (`*dcc_bufptr`), the byte position inside it (`byteofs`), the
completed words emitted so far, and the running checksum (`chksum`). -/
structure PackState where
  cur : Nat
  byteofs : Nat
  words : List Nat
  chksum : Nat
  deriving DecidableEq, Repr

/-- One iteration of the `for` loop at lines 172-192: `switch (byteofs++)`
ANDs the byte into the current word at lane `byteofs` (little-endian); on
lane 3 the completed word is folded into the checksum, the cursor advances
and the next word is initialised to `0xffffffff`.  `byteofs` never leaves
`0..3` (it starts at `(offset % bufalign) % 4`); the last arm mirrors the C
switch executing no case while `byteofs++` still increments. -/
def packByte (s : PackState) (b : Nat) : PackState :=
  match s.byteofs with
  | 0 => { s with cur := s.cur &&& (b ||| 0xffffff00), byteofs := 1 }
  | 1 => { s with cur := s.cur &&& ((b <<< 8) ||| 0xffff00ff), byteofs := 2 }
  | 2 => { s with cur := s.cur &&& ((b <<< 16) ||| 0xff00ffff), byteofs := 3 }
  | 3 =>
      let w := s.cur &&& ((b <<< 24) ||| 0x00ffffff)
      { cur := 0xffffffff, byteofs := 0, words := s.words ++ [w],
        chksum := s.chksum ^^^ w }
  | n + 4 => { s with byteofs := n + 5 }

/-- Initial packing state (lines 167-169): `*dcc_bufptr = 0xffffffff`,
`byteofs = o % 4` with `o` the chunk's starting byte offset
(`offset % bufalign` in `ocl_write`), `chksum = OCL_CHKS_INIT`. -/
def packInit (o : Nat) : PackState :=
  { cur := 0xffffffff, byteofs := o % 4, words := [], chksum := OCL_CHKS_INIT }

/-- The packing loop folded over the chunk's bytes. -/
def packLoop (data : List Nat) (s : PackState) : PackState :=
  data.foldl packByte s

/-- The Block Packer: packs `data` starting at byte offset `o`, returning
the emitted words (including, per lines 194-196, the final partially-filled
word when the chunk ends mid-word) and the checksum over them. -/
def ocl_pack (data : List Nat) (o : Nat) : List Nat × Nat :=
  let s := packLoop data (packInit o)
  if s.byteofs = 0 then (s.words, s.chksum)
  else (s.words ++ [s.cur], s.chksum ^^^ s.cur)

/-- Little-endian byte lane `p` of word `w`:  bits `8p .. 8p+7`. -/
def getLane (w p : Nat) : Nat := w / 2 ^ (8 * p) % 256

/-- Reversal of the byte-placement rule (claim C1): byte `i` of the buffer
is read back from lane `(o % 4 + i) % 4` of word `(o % 4 + i) / 4`. -/
def ocl_unpack (ws : List Nat) (o len : Nat) : List Nat :=
  (List.range len).map fun i =>
    getLane (ws.getD ((o % 4 + i) / 4) 0) ((o % 4 + i) % 4)

/-- Chunk length computation of `ocl_write` (lines 158-161).  The C compares
`count + (offset % bufalign)` in 32-bit unsigned arithmetic, hence the
explicit reduction modulo `2 ^ 32`. -/
def ocl_runlen (buflen bufalign offset count : Nat) : Nat :=
  if (count + offset % bufalign) % 2 ^ 32 > buflen then
    buflen - offset % bufalign
  else count

/-- The chunk sequence generated by the `while (count)` loop of `ocl_write`
(lines 156-232), as pairs of (starting offset, chunk bytes).  The fuel
argument bounds the iteration count; `ocl_chunks` supplies `data.length`,
which suffices because every iteration consumes at least one byte under the
probe invariants (claim C10).  A `runlen = 0` iteration would make no
progress in the C (an infinite loop); it is modelled as truncation and is
unreachable under the probe invariants.  `offset += runlen` is `uint32_t`
arithmetic, hence the reduction modulo `2 ^ 32`. -/
def ocl_chunksF (buflen bufalign : Nat) : Nat → Nat → List Nat → List (Nat × List Nat)
  | _, _, [] => []
  | 0, _, _ :: _ => []
  | fuel + 1, offset, b :: rest =>
      let data := b :: rest
      let runlen := ocl_runlen buflen bufalign offset data.length
      if runlen = 0 then []
      else
        (offset, data.take runlen) ::
          ocl_chunksF buflen bufalign fuel ((offset + runlen) % 2 ^ 32) (data.drop runlen)

/-- Chunk sequence of `ocl_write` for a payload `data` starting at `offset`. -/
def ocl_chunks (buflen bufalign offset : Nat) (data : List Nat) : List (Nat × List Nat) :=
  ocl_chunksF buflen bufalign data.length offset data

/-- The staging-buffer contents transmitted for one chunk (lines 163-198):
`dcc_buffer[0] = OCL_FLASH_BLOCK | runlen`, `dcc_buffer[1] = offset`, the
packed words, then the trailing checksum word. -/
def ocl_chunk_block (bufalign offset runlen : Nat) (data : List Nat) : List Nat :=
  let p := ocl_pack data (offset % bufalign)
  [OCL_FLASH_BLOCK ||| runlen, offset % 2 ^ 32] ++ p.1 ++ [p.2]

/-- `ocl_erase` (lines 71-124): precondition checks, command selection
(erase-all for a whole-bank range, erase-block otherwise), one send,
one bounded handshake, one response word. -/
def ocl_erase (bank : FlashBank) (ocl : OclPriv) (first last : Int) (lk : Link) :
    Except OclErr Unit × Link :=
  if bank.num_sectors = 0 then (.error .BANK_NOT_PROBED, lk)
  else if bank.target_state ≠ .RUNNING then (.error .TARGET_NOT_RUNNING, lk)
  else
    let block :=
      if first = 0 ∧ last = (bank.num_sectors : Int) - 1 then [OCL_ERASE_ALL]
      else [OCL_ERASE_BLOCK, u32ofInt first, u32ofInt last]
    match embeddedice_send lk block with
    | (.fail c, lk1) => (.error (.TRANSPORT c), lk1)
    | (.ok, lk1) =>
      match embeddedice_handshake lk1 EICE_COMM_CTRL_WBIT 1000 with
      | (.fail c, lk2) => (.error (.TRANSPORT c), lk2)
      | (.ok, lk2) =>
        match embeddedice_receive1 lk2 with
        | (.fail c, _, lk3) => (.error (.TRANSPORT c), lk3)
        | (.ok, w, lk3) =>
          if w ≠ OCL_CMD_DONE then (.error .OPERATION_FAILED, lk3)
          else (.ok (), lk3)

/-- The `while (count)` loop of `ocl_write` (lines 156-232): per chunk,
build the staging block, send it, run one bounded handshake, read the
response word, and stop at the first failure.  Fuel as in `ocl_chunksF`. -/
def ocl_write_loopF (buflen bufalign : Nat) :
    Nat → Link → Nat → List Nat → Except OclErr Unit × Link
  | _, lk, _, [] => (.ok (), lk)
  | 0, lk, _, _ :: _ => (.ok (), lk)
  | fuel + 1, lk, offset, b :: rest =>
      let data := b :: rest
      let runlen := ocl_runlen buflen bufalign offset data.length
      if runlen = 0 then (.ok (), lk)
      else
        let block := ocl_chunk_block bufalign offset runlen (data.take runlen)
        match embeddedice_send lk block with
        | (.fail c, lk1) => (.error (.TRANSPORT c), lk1)
        | (.ok, lk1) =>
          match embeddedice_handshake lk1 EICE_COMM_CTRL_WBIT 1000 with
          | (.fail c, lk2) => (.error (.TRANSPORT c), lk2)
          | (.ok, lk2) =>
            match embeddedice_receive1 lk2 with
            | (.fail c, _, lk3) => (.error (.TRANSPORT c), lk3)
            | (.ok, w, lk3) =>
              if w ≠ OCL_CMD_DONE then (.error .OPERATION_FAILED, lk3)
              else
                ocl_write_loopF buflen bufalign fuel lk3
                  ((offset + runlen) % 2 ^ 32) (data.drop runlen)

/-- `ocl_write` (lines 131-236): precondition checks (`buflen`/`bufalign`
non-zero, then target running), then the chunk loop. -/
def ocl_write (bank : FlashBank) (ocl : OclPriv) (data : List Nat) (offset : Nat)
    (lk : Link) : Except OclErr Unit × Link :=
  if ocl.buflen = 0 ∨ ocl.bufalign = 0 then (.error .BANK_NOT_PROBED, lk)
  else if bank.target_state ≠ .RUNNING then (.error .TARGET_NOT_RUNNING, lk)
  else ocl_write_loopF ocl.buflen ocl.bufalign data.length lk offset data

/-- One geometry word read during probe (lines 272-274 and the three
analogous pairs): an indefinite-timeout handshake followed by a single-word
receive. -/
def ocl_recv_word (lk : Link) : Except OclErr Nat × Link :=
  match embeddedice_handshake lk EICE_COMM_CTRL_WBIT 0 with
  | (.fail c, lk1) => (.error (.TRANSPORT c), lk1)
  | (.ok, lk1) =>
    match embeddedice_receive1 lk1 with
    | (.fail c, _, lk2) => (.error (.TRANSPORT c), lk2)
    | (.ok, w, lk2) => (.ok w, lk2)

/-- `ocl_probe` (lines 238-334): purge one stale word, send the probe
opcode, bounded handshake, read the response; then four geometry words
(base, size, sector count, combined buffer word) assigned as received;
then the validation checks in source order.  The `realloc` of the sector
array is allocation only (its entries are written by the fill loop), so it
is not modelled separately. -/
def ocl_probe (bank : FlashBank) (ocl : OclPriv) (lk : Link) :
    Except OclErr Unit × FlashBank × OclPriv × Link :=
  let purge := embeddedice_receive1 lk
  match embeddedice_send purge.2.2 [OCL_PROBE] with
  | (.fail c, lk1) => (.error (.TRANSPORT c), bank, ocl, lk1)
  | (.ok, lk1) =>
  match embeddedice_handshake lk1 EICE_COMM_CTRL_WBIT 1000 with
  | (.fail c, lk2) => (.error (.TRANSPORT c), bank, ocl, lk2)
  | (.ok, lk2) =>
  match embeddedice_receive1 lk2 with
  | (.fail c, _, lk3) => (.error (.TRANSPORT c), bank, ocl, lk3)
  | (.ok, w, lk3) =>
  if w ≠ OCL_CMD_DONE then (.error .OPERATION_FAILED, bank, ocl, lk3)
  else
  match ocl_recv_word lk3 with
  | (.error e, lk4) => (.error e, bank, ocl, lk4)
  | (.ok w1, lk4) =>
  let bank1 := { bank with base := w1 }
  match ocl_recv_word lk4 with
  | (.error e, lk5) => (.error e, bank1, ocl, lk5)
  | (.ok w2, lk5) =>
  let bank2 := { bank1 with size := w2 }
  match ocl_recv_word lk5 with
  | (.error e, lk6) => (.error e, bank2, ocl, lk6)
  | (.ok w3, lk6) =>
  let bank3 := { bank2 with num_sectors := w3 }
  match ocl_recv_word lk6 with
  | (.error e, lk7) => (.error e, bank3, ocl, lk7)
  | (.ok w4, lk7) =>
  let ocl1 : OclPriv := { buflen := w4 &&& 0xffff, bufalign := w4 >>> 16 }
  if bank3.num_sectors = 0 then (.error .BANK_INVALID, bank3, ocl1, lk7)
  else if bank3.size % bank3.num_sectors ≠ 0 then (.error .BANK_INVALID, bank3, ocl1, lk7)
  else
  let sectsize := bank3.size / bank3.num_sectors
  let bank4 := { bank3 with sectors := (List.range bank3.num_sectors).map fun i =>
      { offset := i * sectsize, size := sectsize, is_erased := -1, is_protected := -1 } }
  let ocl2 := if ocl1.bufalign = 0 then { ocl1 with bufalign := 1 } else ocl1
  if ocl2.buflen = 0 then (.error .BANK_INVALID, bank4, ocl2, lk7)
  else if ocl2.bufalign > ocl2.buflen ∨ ocl2.buflen % ocl2.bufalign ≠ 0 then
    (.error .BANK_INVALID, bank4, ocl2, lk7)
  else if ocl2.buflen % 4 ≠ 0 then (.error .BANK_INVALID, bank4, ocl2, lk7)
  else (.ok (), bank4, ocl2, lk7)

/-- `ocl_auto_probe` (lines 341-349). -/
def ocl_auto_probe (ocl : OclPriv) : Except OclErr Unit :=
  if ocl.buflen = 0 ∨ ocl.bufalign = 0 then .error .BANK_NOT_PROBED
  else .ok ()

/-- A fully cooperative transport for a probe run: the purge word, the
probe response, and the four geometry words. -/
def probeLink (purge resp base size ns bufw : Nat) : Link :=
  { env := { sendOut := [], hsOut := [],
             recvOut := [(.ok, purge), (.ok, resp), (.ok, base), (.ok, size),
                         (.ok, ns), (.ok, bufw)] },
    sent := [] }

/-- The operand that the `switch` arm for lane `c` ANDs into the current
word: the byte shifted to lane `c`, all other lanes all-ones. -/
def laneMaskOf (c b : Nat) : Nat :=
  match c with
  | 0 => b ||| 0xffffff00
  | 1 => (b <<< 8) ||| 0xffff00ff
  | 2 => (b <<< 16) ||| 0xff00ffff
  | _ => (b <<< 24) ||| 0x00ffffff

/-- The byte value that lane `p` of output word `j` must hold after packing
byte list `B` from starting lane `q`: the payload byte landing there, or the
`0xFF` filler if no payload byte does. -/
def laneData (B : List Nat) (q j p : Nat) : Nat :=
  if q ≤ 4 * j + p ∧ 4 * j + p < q + B.length then B.getD (4 * j + p - q) 0 else 255

/-- Loop invariant of the packing loop after consuming exactly the bytes of
`B`, starting from lane `q < 4`: cursor position and emitted-word count
follow `q + |B|`, the checksum is the XOR fold of the emitted words, and
every lane of the current word and of every emitted word holds exactly the
payload byte placed there, or `0xFF` filler. -/
def PackInv (B : List Nat) (q : Nat) (s : PackState) : Prop :=
  s.byteofs = (q + B.length) % 4 ∧
  s.words.length = (q + B.length) / 4 ∧
  s.chksum = s.words.foldl (fun a w => a ^^^ w) OCL_CHKS_INIT ∧
  (∀ p, p < 4 → getLane s.cur p = laneData B q ((q + B.length) / 4) p) ∧
  (∀ j p, j < s.words.length → p < 4 → getLane (s.words.getD j 0) p = laneData B q j p)

/-- A concrete running 16-sector bank used by several witnesses. -/
def bank16 : FlashBank := ⟨0, 0x10000, 16, [], .RUNNING⟩

/-- A fully cooperative transport with an empty send log. -/
def freshLink : Link := ⟨⟨[], [], []⟩, []⟩

/-- A cooperative transport that answers one command with `OCL_CMD_DONE`. -/
def doneLink : Link := ⟨⟨[], [], [(.ok, OCL_CMD_DONE)]⟩, []⟩

/-! ### Chunking lemmas (claims C2, C10) -/

lemma ocl_runlen_spec (BL BA offset count : Nat) (hBA : 1 ≤ BA) (hle : BA ≤ BL)
    (hcount : 1 ≤ count) (hov : count + offset % BA < 2 ^ 32) :
    1 ≤ ocl_runlen BL BA offset count ∧
    ocl_runlen BL BA offset count ≤ count ∧
    ocl_runlen BL BA offset count = min count (BL - offset % BA) := by
  have hrBA : offset % BA < BA := Nat.mod_lt _ (by omega)
  unfold ocl_runlen
  rw [Nat.mod_eq_of_lt hov]
  split <;> omega

lemma ocl_chunksF_spec (BL BA : Nat) (hBA : 1 ≤ BA) (hle : BA ≤ BL) :
    ∀ fuel (data : List Nat) (offset : Nat), data.length ≤ fuel →
      offset + data.length < 2 ^ 32 →
      ((ocl_chunksF BL BA fuel offset data).map Prod.snd).flatten = data ∧
      ((ocl_chunksF BL BA fuel offset data).map
          (fun c => List.range' c.1 c.2.length)).flatten = List.range' offset data.length ∧
      ∀ c ∈ ocl_chunksF BL BA fuel offset data,
          offset ≤ c.1 ∧
          c.2.length = min (data.length - (c.1 - offset)) (BL - c.1 % BA) ∧
          c.1 % BA + c.2.length ≤ BL ∧ 1 ≤ c.2.length := by
  intro fuel
  induction fuel with
  | zero =>
      intro data offset hlen hov
      match data with
      | [] => simp [ocl_chunksF]
      | b :: rest => simp at hlen
  | succ fuel ih =>
      intro data offset hlen hov
      match data with
      | [] => simp [ocl_chunksF]
      | b :: rest =>
        have hrle : offset % BA ≤ offset := Nat.mod_le _ _
        have hrBA : offset % BA < BA := Nat.mod_lt _ (by omega)
        obtain ⟨hr1, hr2, hr3⟩ :=
          ocl_runlen_spec BL BA offset (b :: rest).length hBA hle (by simp)
            (by simp at hov ⊢; omega)
        set R := ocl_runlen BL BA offset (b :: rest).length with hR
        have hlen' : ((b :: rest).drop R).length ≤ fuel := by
          rw [List.length_drop]; simp at hlen ⊢; omega
        have hmod : (offset + R) % 2 ^ 32 = offset + R :=
          Nat.mod_eq_of_lt (by omega)
        have hov' : (offset + R) + ((b :: rest).drop R).length < 2 ^ 32 := by
          rw [List.length_drop]; omega
        obtain ⟨ihA, ihB, ihC⟩ := ih ((b :: rest).drop R) (offset + R) hlen' hov'
        have hunf : ocl_chunksF BL BA (fuel + 1) offset (b :: rest) =
            (offset, (b :: rest).take R) ::
              ocl_chunksF BL BA fuel (offset + R) ((b :: rest).drop R) := by
          show (if R = 0 then [] else _) = _
          rw [if_neg (by omega), hmod]
        have htakelen : ((b :: rest).take R).length = R := by
          rw [List.length_take]; simp at hr2 ⊢; omega
        refine ⟨?_, ?_, ?_⟩
        · rw [hunf]; simp only [List.map_cons, List.flatten_cons, ihA]
          exact List.take_append_drop R (b :: rest)
        · rw [hunf]; simp only [List.map_cons, List.flatten_cons, ihB, htakelen,
            List.length_drop]
          have hap := List.range'_append offset R ((b :: rest).length - R) 1
          simp only [one_mul, Nat.mul_one] at hap
          rw [hap]
          congr 1
          omega
        · rw [hunf]
          intro c hc
          rcases List.mem_cons.mp hc with hhead | htail
          · subst hhead
            refine ⟨Nat.le_refl _, ?_, ?_, ?_⟩ <;> simp only [htakelen] <;> omega
          · obtain ⟨hcle, hclen, hcbound, hcpos⟩ := ihC c htail
            refine ⟨by omega, ?_, hcbound, hcpos⟩
            rw [hclen, List.length_drop]
            congr 1
            omega

lemma length_le_sum_of_one_le (l : List Nat) (h : ∀ x ∈ l, 1 ≤ x) :
    l.length ≤ l.sum := by
  induction l with
  | nil => simp
  | cons a t ih =>
      have ha := h a (by simp)
      have ht := ih (fun x hx => h x (by simp [hx]))
      simp only [List.length_cons, List.sum_cons]
      omega

/-- C2: for every payload and start offset, under the probed invariants
(`BA ∣ BL`, `BA ≤ BL`, both non-zero) and with the write staying inside the
32-bit address space, each chunk's length is the lesser of the remaining
byte count and `BL - (chunk_start % BA)`, no chunk crosses a
buffer-alignment boundary (`chunk_start % BA + chunk_length ≤ BL`), and the
chunk sequence covers the byte range `[X, X + L)` exactly once, in
ascending order, partitioning the payload bytes in order. -/
theorem ocl_write_chunk_sequence (BL BA X : Nat) (data : List Nat)
    (hBA : 1 ≤ BA) (hle : BA ≤ BL) (hdvd : BA ∣ BL)
    (hov : X + data.length < 2 ^ 32) :
    (∀ c ∈ ocl_chunks BL BA X data,
        c.2.length = min (data.length - (c.1 - X)) (BL - c.1 % BA) ∧
        c.1 % BA + c.2.length ≤ BL) ∧
    ((ocl_chunks BL BA X data).map Prod.snd).flatten = data ∧
    ((ocl_chunks BL BA X data).map (fun c => List.range' c.1 c.2.length)).flatten
        = List.range' X data.length := by
  obtain ⟨hA, hB, hC⟩ :=
    ocl_chunksF_spec BL BA hBA hle data.length data X (Nat.le_refl _) hov
  exact ⟨fun c hc => ⟨(hC c hc).2.1, (hC c hc).2.2.1⟩, hA, hB⟩

/-- Witness for C2 at the spec's scenario: `write(offset = 0x0FFE, 6 bytes)`
with `buffer_length = 0x1000`, `buffer_alignment = 0x1000`. -/
theorem ocl_write_chunk_sequence_witness :
    (∀ c ∈ ocl_chunks 0x1000 0x1000 0x0FFE [1, 2, 3, 4, 5, 6],
        c.2.length = min (([1, 2, 3, 4, 5, 6] : List Nat).length - (c.1 - 0x0FFE))
            (0x1000 - c.1 % 0x1000) ∧
        c.1 % 0x1000 + c.2.length ≤ 0x1000) ∧
    ((ocl_chunks 0x1000 0x1000 0x0FFE [1, 2, 3, 4, 5, 6]).map Prod.snd).flatten
        = [1, 2, 3, 4, 5, 6] ∧
    ((ocl_chunks 0x1000 0x1000 0x0FFE [1, 2, 3, 4, 5, 6]).map
        (fun c => List.range' c.1 c.2.length)).flatten
        = List.range' 0x0FFE ([1, 2, 3, 4, 5, 6] : List Nat).length :=
  ocl_write_chunk_sequence 0x1000 0x1000 0x0FFE [1, 2, 3, 4, 5, 6]
    (by decide) (by decide) (by decide) (by decide)

/-- C10: the chunking loop of `ocl_write` terminates.  Under the probed
invariant `1 ≤ BA ≤ BL`, every iteration's chunk length is at least `1`
whenever bytes remain, so the remaining count strictly decreases; the chunk
sequence consumes the whole payload in at most `L` chunks. -/
theorem ocl_write_loop_termination (BL BA : Nat) (hBA : 1 ≤ BA) (hle : BA ≤ BL) :
    (∀ offset count, 1 ≤ count → 1 ≤ ocl_runlen BL BA offset count) ∧
    (∀ X data, X + data.length < 2 ^ 32 →
        ((ocl_chunks BL BA X data).map (fun c => c.2.length)).sum = data.length ∧
        (ocl_chunks BL BA X data).length ≤ data.length) := by
  constructor
  · intro offset count hcount
    have hrBA : offset % BA < BA := Nat.mod_lt _ (by omega)
    unfold ocl_runlen
    split <;> omega
  · intro X data hov
    obtain ⟨hA, hB, hC⟩ :=
      ocl_chunksF_spec BL BA hBA hle data.length data X (Nat.le_refl _) hov
    have hsum : ((ocl_chunks BL BA X data).map (fun c => c.2.length)).sum
        = data.length := by
      have := congrArg List.length hA
      rw [List.length_flatten, List.map_map] at this
      simpa using this
    refine ⟨hsum, ?_⟩
    have hpos : ∀ x ∈ (ocl_chunks BL BA X data).map (fun c => c.2.length), 1 ≤ x := by
      intro x hx
      obtain ⟨c, hc, hcx⟩ := List.mem_map.mp hx
      have := (hC c hc).2.2.2
      omega
    have := length_le_sum_of_one_le _ hpos
    rw [hsum] at this
    simpa using this

/-- Witness for C10 at `BL = BA = 0x1000`, a 6-byte payload at `0x0FFE`. -/
theorem ocl_write_loop_termination_witness :
    (∀ offset count, 1 ≤ count → 1 ≤ ocl_runlen 0x1000 0x1000 offset count) ∧
    (∀ X data, X + data.length < 2 ^ 32 →
        ((ocl_chunks 0x1000 0x1000 X data).map (fun c => c.2.length)).sum
            = data.length ∧
        (ocl_chunks 0x1000 0x1000 X data).length ≤ data.length) :=
  ocl_write_loop_termination 0x1000 0x1000 (by decide) (by decide)

/-! ### Byte-lane lemmas for the Block Packer (claims C1, C3, C9) -/

lemma getLane_lt (w p : Nat) : getLane w p < 256 := Nat.mod_lt _ (by omega)

lemma getLane_and (x y p : Nat) : getLane (x &&& y) p = getLane x p &&& getLane y p := by
  unfold getLane
  rw [show (256 : Nat) = 2 ^ 8 from rfl]
  rw [← Nat.shiftRight_eq_div_pow, ← Nat.shiftRight_eq_div_pow, ← Nat.shiftRight_eq_div_pow]
  apply Nat.eq_of_testBit_eq
  intro i
  simp only [Nat.testBit_mod_two_pow, Nat.testBit_shiftRight, Nat.testBit_and]
  by_cases hi : i < 8 <;> simp [hi]

lemma getLane_or (x y p : Nat) : getLane (x ||| y) p = getLane x p ||| getLane y p := by
  unfold getLane
  rw [show (256 : Nat) = 2 ^ 8 from rfl]
  rw [← Nat.shiftRight_eq_div_pow, ← Nat.shiftRight_eq_div_pow, ← Nat.shiftRight_eq_div_pow]
  apply Nat.eq_of_testBit_eq
  intro i
  simp only [Nat.testBit_mod_two_pow, Nat.testBit_shiftRight, Nat.testBit_or]
  by_cases hi : i < 8 <;> simp [hi]

lemma and255 (y : Nat) (hy : y < 256) : y &&& 255 = y := by
  apply Nat.eq_of_testBit_eq
  intro i
  rw [Nat.testBit_and]
  by_cases hi : i < 8
  · have h255 : Nat.testBit 255 i = true := by interval_cases i <;> decide
    simp [h255]
  · have hpow : (256 : Nat) ≤ 2 ^ i := by
      rw [show (256 : Nat) = 2 ^ 8 from rfl]
      exact Nat.pow_le_pow_right (by omega) (by omega)
    have h1 : Nat.testBit y i = false := Nat.testBit_lt_two_pow (by omega)
    have h2 : Nat.testBit 255 i = false := Nat.testBit_lt_two_pow (by omega)
    simp [h1, h2]

lemma getLane_byte (b p : Nat) (hb : b < 256) (hp : p < 4) :
    getLane b p = if p = 0 then b else 0 := by
  simp only [getLane]
  interval_cases p <;> norm_num <;> omega

lemma getLane_shl8 (b p : Nat) (hb : b < 256) (hp : p < 4) :
    getLane (b <<< 8) p = if p = 1 then b else 0 := by
  rw [Nat.shiftLeft_eq]
  simp only [getLane]
  interval_cases p <;> norm_num <;> omega

lemma getLane_shl16 (b p : Nat) (hb : b < 256) (hp : p < 4) :
    getLane (b <<< 16) p = if p = 2 then b else 0 := by
  rw [Nat.shiftLeft_eq]
  simp only [getLane]
  interval_cases p <;> norm_num <;> omega

lemma getLane_shl24 (b p : Nat) (hb : b < 256) (hp : p < 4) :
    getLane (b <<< 24) p = if p = 3 then b else 0 := by
  rw [Nat.shiftLeft_eq]
  simp only [getLane]
  interval_cases p <;> norm_num <;> omega

lemma laneMaskOf_spec (c b : Nat) (hc : c < 4) (hb : b < 256) :
    getLane (laneMaskOf c b) c = b ∧
    ∀ p, p < 4 → p ≠ c → getLane (laneMaskOf c b) p = 255 := by
  have e0 : ∀ p, p < 4 → getLane (0xffffff00 : Nat) p = if p = 0 then 0 else 255 := by
    intro p hp; interval_cases p <;> decide
  have e1 : ∀ p, p < 4 → getLane (0xffff00ff : Nat) p = if p = 1 then 0 else 255 := by
    intro p hp; interval_cases p <;> decide
  have e2 : ∀ p, p < 4 → getLane (0xff00ffff : Nat) p = if p = 2 then 0 else 255 := by
    intro p hp; interval_cases p <;> decide
  have e3 : ∀ p, p < 4 → getLane (0x00ffffff : Nat) p = if p = 3 then 0 else 255 := by
    intro p hp; interval_cases p <;> decide
  interval_cases c
  · constructor
    · simp only [laneMaskOf, getLane_or, getLane_byte b 0 hb (by omega), e0 0 (by omega)]
      simp
    · intro p hp hne
      rw [show laneMaskOf 0 b = b ||| 0xffffff00 from rfl, getLane_or,
        getLane_byte b p hb hp, e0 p hp, if_neg hne, if_neg hne]
      decide
  · constructor
    · simp only [laneMaskOf, getLane_or, getLane_shl8 b 1 hb (by omega), e1 1 (by omega)]
      simp
    · intro p hp hne
      rw [show laneMaskOf 1 b = (b <<< 8) ||| 0xffff00ff from rfl, getLane_or,
        getLane_shl8 b p hb hp, e1 p hp, if_neg hne, if_neg hne]
      decide
  · constructor
    · simp only [laneMaskOf, getLane_or, getLane_shl16 b 2 hb (by omega), e2 2 (by omega)]
      simp
    · intro p hp hne
      rw [show laneMaskOf 2 b = (b <<< 16) ||| 0xff00ffff from rfl, getLane_or,
        getLane_shl16 b p hb hp, e2 p hp, if_neg hne, if_neg hne]
      decide
  · constructor
    · simp only [laneMaskOf, getLane_or, getLane_shl24 b 3 hb (by omega), e3 3 (by omega)]
      simp
    · intro p hp hne
      rw [show laneMaskOf 3 b = (b <<< 24) ||| 0x00ffffff from rfl, getLane_or,
        getLane_shl24 b p hb hp, e3 p hp, if_neg hne, if_neg hne]
      decide

lemma laneData_outside (B : List Nat) (q j p : Nat)
    (h : ¬(q ≤ 4 * j + p ∧ 4 * j + p < q + B.length)) : laneData B q j p = 255 :=
  if_neg h

lemma laneData_inside (B : List Nat) (q j p : Nat)
    (h1 : q ≤ 4 * j + p) (h2 : 4 * j + p < q + B.length) :
    laneData B q j p = B.getD (4 * j + p - q) 0 :=
  if_pos ⟨h1, h2⟩

lemma laneData_append_lt (B : List Nat) (b q j p : Nat)
    (hlt : 4 * j + p < q + B.length) :
    laneData (B ++ [b]) q j p = laneData B q j p := by
  by_cases hq : q ≤ 4 * j + p
  · rw [laneData_inside _ _ _ _ hq (by rw [List.length_append]; simp; omega),
      laneData_inside _ _ _ _ hq hlt]
    exact List.getD_append _ _ _ _ (by omega)
  · rw [laneData_outside _ _ _ _ (by tauto), laneData_outside _ _ _ _ (by tauto)]

lemma laneData_append_new (B : List Nat) (b q j p : Nat)
    (hq : q ≤ 4 * j + p) (heq : 4 * j + p = q + B.length) :
    laneData (B ++ [b]) q j p = b := by
  rw [laneData_inside _ _ _ _ hq (by rw [List.length_append]; simp; omega)]
  rw [List.getD_append_right _ _ _ _ (by omega)]
  simp [show 4 * j + p - q - B.length = 0 by omega]

lemma packByte_eq_lt (s : PackState) (b : Nat) (h : s.byteofs < 3) :
    packByte s b =
      { s with cur := s.cur &&& laneMaskOf s.byteofs b, byteofs := s.byteofs + 1 } := by
  rcases s with ⟨cur, bo, words, ck⟩
  simp only at h
  rcases bo with _ | _ | _ | m
  · simp [packByte, laneMaskOf]
  · simp [packByte, laneMaskOf]
  · simp [packByte, laneMaskOf]
  · omega

lemma packByte_eq_3 (s : PackState) (b : Nat) (h : s.byteofs = 3) :
    packByte s b =
      { cur := 0xffffffff, byteofs := 0,
        words := s.words ++ [s.cur &&& laneMaskOf 3 b],
        chksum := s.chksum ^^^ (s.cur &&& laneMaskOf 3 b) } := by
  rcases s with ⟨cur, bo, words, ck⟩
  simp only at h
  subst h
  simp [packByte, laneMaskOf]

lemma packInv_init (o : Nat) : PackInv [] (o % 4) (packInit o) := by
  refine ⟨?_, ?_, ?_, ?_, ?_⟩
  · show o % 4 = (o % 4 + 0) % 4
    omega
  · show (0 : Nat) = (o % 4 + 0) / 4
    omega
  · rfl
  · intro p hp
    show getLane 0xffffffff p = laneData [] (o % 4) ((o % 4 + 0) / 4) p
    rw [laneData_outside _ _ _ _ (by simp only [List.length_nil]; omega)]
    interval_cases p <;> decide
  · intro j p hj hp
    exact absurd (show j < 0 from hj) (by omega)

lemma packInv_step (B : List Nat) (q b : Nat) (hq : q < 4) (hb : b < 256)
    (s : PackState) (h : PackInv B q s) : PackInv (B ++ [b]) q (packByte s b) := by
  obtain ⟨hbo, hwl, hck, hcur, hwords⟩ := h
  have hlenA : (B ++ [b]).length = B.length + 1 := by simp
  have hdm := Nat.div_add_mod (q + B.length) 4
  have hm4 : (q + B.length) % 4 < 4 := Nat.mod_lt _ (by omega)
  by_cases h3 : s.byteofs = 3
  · -- lane-3 arm: the word completes and is emitted
    have hc3 : (q + B.length) % 4 = 3 := by rw [← hbo]; exact h3
    have hnwl : (q + (B.length + 1)) / 4 = (q + B.length) / 4 + 1 := by omega
    obtain ⟨hM, hMo⟩ := laneMaskOf_spec 3 b (by omega) hb
    rw [packByte_eq_3 s b h3]
    refine ⟨?_, ?_, ?_, ?_, ?_⟩
    · show (0 : Nat) = (q + (B ++ [b]).length) % 4
      rw [hlenA]; omega
    · show (s.words ++ [s.cur &&& laneMaskOf 3 b]).length = (q + (B ++ [b]).length) / 4
      rw [List.length_append, hlenA]
      simp only [List.length_cons, List.length_nil]
      omega
    · show s.chksum ^^^ (s.cur &&& laneMaskOf 3 b) =
        (s.words ++ [s.cur &&& laneMaskOf 3 b]).foldl (fun a w => a ^^^ w) OCL_CHKS_INIT
      rw [List.foldl_append, hck]
      rfl
    · intro p hp
      show getLane 0xffffffff p =
        laneData (B ++ [b]) q ((q + (B ++ [b]).length) / 4) p
      rw [hlenA, hnwl, laneData_outside _ _ _ _ (by rw [List.length_append]; simp; omega)]
      interval_cases p <;> decide
    · intro j p hj hp
      have hj' : j < s.words.length + 1 := by
        simpa using hj
      show getLane ((s.words ++ [s.cur &&& laneMaskOf 3 b]).getD j 0) p =
        laneData (B ++ [b]) q j p
      rcases Nat.lt_or_ge j s.words.length with hlt | hge
      · rw [List.getD_append _ _ _ _ hlt,
          laneData_append_lt B b q j p (by omega), hwords j p hlt hp]
      · have hjw : j = s.words.length := by omega
        have hw : (s.words ++ [s.cur &&& laneMaskOf 3 b]).getD j 0 =
            s.cur &&& laneMaskOf 3 b := by
          rw [List.getD_append_right _ _ _ _ (by omega)]
          simp [show j - s.words.length = 0 by omega]
        rw [hw]
        have hj4 : j = (q + B.length) / 4 := by omega
        subst hj4
        by_cases hp3 : p = 3
        · subst hp3
          rw [getLane_and, hM]
          have hxc : getLane s.cur 3 = 255 := by
            rw [hcur 3 (by omega)]
            exact laneData_outside _ _ _ _ (by omega)
          rw [hxc, Nat.and_comm, and255 b hb]
          exact (laneData_append_new B b q _ 3 (by omega) (by omega)).symm
        · rw [getLane_and, hMo p hp hp3, and255 _ (getLane_lt s.cur p), hcur p hp,
            laneData_append_lt B b q _ p (by omega)]
  · -- lanes 0..2: the byte is ANDed into the current word
    have hlt3 : s.byteofs < 3 := by omega
    have hc : s.byteofs = (q + B.length) % 4 := hbo
    have hnwl : (q + (B.length + 1)) / 4 = (q + B.length) / 4 := by omega
    obtain ⟨hM, hMo⟩ := laneMaskOf_spec s.byteofs b (by omega) hb
    rw [packByte_eq_lt s b hlt3]
    refine ⟨?_, ?_, ?_, ?_, ?_⟩
    · show s.byteofs + 1 = (q + (B ++ [b]).length) % 4
      rw [hlenA]; omega
    · show s.words.length = (q + (B ++ [b]).length) / 4
      rw [hlenA, hnwl, hwl]
    · exact hck
    · intro p hp
      show getLane (s.cur &&& laneMaskOf s.byteofs b) p =
        laneData (B ++ [b]) q ((q + (B ++ [b]).length) / 4) p
      rw [hlenA, hnwl]
      by_cases hpc : p = s.byteofs
      · subst hpc
        rw [getLane_and, hM]
        have hxc : getLane s.cur s.byteofs = 255 := by
          rw [hcur s.byteofs hp]
          exact laneData_outside _ _ _ _ (by omega)
        rw [hxc, Nat.and_comm, and255 b hb]
        exact (laneData_append_new B b q _ s.byteofs (by omega) (by omega)).symm
      · rw [getLane_and, hMo p hp hpc, and255 _ (getLane_lt s.cur p), hcur p hp]
        by_cases hin : 4 * ((q + B.length) / 4) + p < q + B.length
        · rw [laneData_append_lt B b q _ p hin]
        · rw [laneData_outside _ _ _ _ (by omega),
            laneData_outside _ _ _ _ (by rw [List.length_append]; simp; omega)]
    · intro j p hj hp
      have hj' : j < s.words.length := hj
      show getLane (s.words.getD j 0) p = laneData (B ++ [b]) q j p
      rw [hwords j p hj' hp, laneData_append_lt B b q j p (by omega)]

lemma packLoop_append (B : List Nat) (b : Nat) (s : PackState) :
    packLoop (B ++ [b]) s = packByte (packLoop B s) b := by
  unfold packLoop
  rw [List.foldl_append]
  rfl

lemma packInv_all (o : Nat) (B : List Nat) :
    (∀ x ∈ B, x < 256) → PackInv B (o % 4) (packLoop B (packInit o)) := by
  induction B using List.reverseRecOn with
  | nil => intro _; exact packInv_init o
  | append_singleton B b ih =>
      intro hB
      rw [packLoop_append]
      exact packInv_step B (o % 4) b (Nat.mod_lt _ (by omega)) (hB b (by simp)) _
        (ih (fun x hx => hB x (by simp [hx])))

lemma ocl_pack_def (data : List Nat) (o : Nat) :
    ocl_pack data o =
      if (packLoop data (packInit o)).byteofs = 0 then
        ((packLoop data (packInit o)).words, (packLoop data (packInit o)).chksum)
      else ((packLoop data (packInit o)).words ++ [(packLoop data (packInit o)).cur],
        (packLoop data (packInit o)).chksum ^^^ (packLoop data (packInit o)).cur) := rfl

lemma ocl_pack_getD (data : List Nat) (o : Nat) (hB : ∀ x ∈ data, x < 256)
    (j p : Nat) (hp : p < 4) (hjq : o % 4 ≤ 4 * j + p)
    (hj : 4 * j + p < o % 4 + data.length) :
    getLane ((ocl_pack data o).1.getD j 0) p = data.getD (4 * j + p - o % 4) 0 := by
  obtain ⟨hbo, hwl, hck, hcur, hwords⟩ := packInv_all o data hB
  have hdm := Nat.div_add_mod (o % 4 + data.length) 4
  have hm4 : (o % 4 + data.length) % 4 < 4 := Nat.mod_lt _ (by omega)
  rw [ocl_pack_def]
  split
  case isTrue hz =>
    have hjw : j < (packLoop data (packInit o)).words.length := by omega
    show getLane ((packLoop data (packInit o)).words.getD j 0) p = _
    rw [hwords j p hjw hp, laneData_inside _ _ _ _ hjq hj]
  case isFalse hz =>
    rcases Nat.lt_or_ge j ((o % 4 + data.length) / 4) with hlt | hge
    · have hjw : j < (packLoop data (packInit o)).words.length := by omega
      show getLane (((packLoop data (packInit o)).words ++
        [(packLoop data (packInit o)).cur]).getD j 0) p = _
      rw [List.getD_append _ _ _ _ hjw, hwords j p hjw hp,
        laneData_inside _ _ _ _ hjq hj]
    · have hjw : j = (o % 4 + data.length) / 4 := by omega
      show getLane (((packLoop data (packInit o)).words ++
        [(packLoop data (packInit o)).cur]).getD j 0) p = _
      rw [List.getD_append_right _ _ _ _ (by omega)]
      rw [show j - (packLoop data (packInit o)).words.length = 0 from by omega]
      show getLane (packLoop data (packInit o)).cur p = _
      rw [hcur p hp, hjw, laneData_inside _ _ _ _ (by omega) (by omega)]

lemma ocl_pack_length (data : List Nat) (o : Nat) (hB : ∀ x ∈ data, x < 256) :
    (ocl_pack data o).1.length = (o % 4 + data.length + 3) / 4 := by
  obtain ⟨hbo, hwl, hck, hcur, hwords⟩ := packInv_all o data hB
  rw [ocl_pack_def]
  split
  case isTrue hz =>
    show (packLoop data (packInit o)).words.length = _
    rw [hwl]
    omega
  case isFalse hz =>
    show ((packLoop data (packInit o)).words ++
      [(packLoop data (packInit o)).cur]).length = _
    rw [List.length_append, hwl]
    simp only [List.length_cons, List.length_nil]
    omega

lemma packLoop_chksum (data : List Nat) (s : PackState)
    (h : s.chksum = s.words.foldl (fun a w => a ^^^ w) OCL_CHKS_INIT) :
    (packLoop data s).chksum =
      (packLoop data s).words.foldl (fun a w => a ^^^ w) OCL_CHKS_INIT := by
  induction data generalizing s with
  | nil => exact h
  | cons b rest ih =>
      show (packLoop rest (packByte s b)).chksum = _
      apply ih
      rcases s with ⟨cur, bo, words, ck⟩
      rcases bo with _ | _ | _ | _ | m
      · exact h
      · exact h
      · exact h
      · simp only [packByte, List.foldl_append, List.foldl_cons, List.foldl_nil]
        rw [← h]
      · exact h

lemma ocl_pack_chksum_eq (data : List Nat) (o : Nat) :
    (ocl_pack data o).2 =
      (ocl_pack data o).1.foldl (fun a w => a ^^^ w) OCL_CHKS_INIT := by
  have h := packLoop_chksum data (packInit o) rfl
  rw [ocl_pack_def]
  split
  · exact h
  · show (packLoop data (packInit o)).chksum ^^^ (packLoop data (packInit o)).cur =
      ((packLoop data (packInit o)).words ++
        [(packLoop data (packInit o)).cur]).foldl (fun a w => a ^^^ w) OCL_CHKS_INIT
    rw [List.foldl_append, ← h]
    rfl

/-- C1: packing round-trip.  For every byte buffer and starting offset,
reversing the byte-placement rule on the packer's output words reproduces
the buffer exactly, and every byte slot of the final word that received no
data holds the `0xFF` filler. -/
theorem ocl_pack_roundtrip (data : List Nat) (o : Nat)
    (hB : ∀ x ∈ data, x < 256) :
    ocl_unpack (ocl_pack data o).1 o data.length = data ∧
    ((ocl_pack data o).1 ≠ [] → ∀ p, p < 4 →
      ¬(o % 4 ≤ 4 * ((ocl_pack data o).1.length - 1) + p ∧
          4 * ((ocl_pack data o).1.length - 1) + p < o % 4 + data.length) →
      getLane ((ocl_pack data o).1.getD ((ocl_pack data o).1.length - 1) 0) p
        = 255) := by
  constructor
  · apply List.ext_getElem
    · simp [ocl_unpack]
    · intro i h1 h2
      simp only [ocl_unpack, List.getElem_map, List.getElem_range]
      rw [ocl_pack_getD data o hB ((o % 4 + i) / 4) ((o % 4 + i) % 4)
        (by omega) (by omega) (by omega)]
      rw [show 4 * ((o % 4 + i) / 4) + (o % 4 + i) % 4 - o % 4 = i from by omega]
      exact List.getD_eq_getElem data 0 h2
  · intro hne p hp hout
    obtain ⟨hbo, hwl, hck, hcur, hwords⟩ := packInv_all o data hB
    by_cases hz : (packLoop data (packInit o)).byteofs = 0
    · have hw : (ocl_pack data o).1 = (packLoop data (packInit o)).words := by
        rw [ocl_pack_def, if_pos hz]
      rw [hw] at hne hout ⊢
      have hpos : 0 < (packLoop data (packInit o)).words.length :=
        List.length_pos.mpr hne
      rw [hwords _ p (by omega) hp]
      exact laneData_outside _ _ _ _ hout
    · have hw : (ocl_pack data o).1 =
          (packLoop data (packInit o)).words ++ [(packLoop data (packInit o)).cur] := by
        rw [ocl_pack_def, if_neg hz]
      rw [hw] at hout ⊢
      rw [List.length_append] at hout ⊢
      simp only [List.length_cons, List.length_nil] at hout ⊢
      rw [show (packLoop data (packInit o)).words.length + (0 + 1) - 1
          = (packLoop data (packInit o)).words.length from by omega] at hout ⊢
      rw [List.getD_append_right _ _ _ _ (Nat.le_refl _), Nat.sub_self]
      show getLane (packLoop data (packInit o)).cur p = 255
      rw [hcur p hp]
      rw [hwl] at hout
      exact laneData_outside _ _ _ _ hout

/-- Witness for C1: a 5-byte buffer (containing a `0xFF` data byte) packed
from starting offset 3. -/
theorem ocl_pack_roundtrip_witness :
    ocl_unpack (ocl_pack [255, 0, 171, 1, 2] 3).1 3
        ([255, 0, 171, 1, 2] : List Nat).length = [255, 0, 171, 1, 2] ∧
    ((ocl_pack [255, 0, 171, 1, 2] 3).1 ≠ [] → ∀ p, p < 4 →
      ¬(3 % 4 ≤ 4 * ((ocl_pack [255, 0, 171, 1, 2] 3).1.length - 1) + p ∧
          4 * ((ocl_pack [255, 0, 171, 1, 2] 3).1.length - 1) + p <
            3 % 4 + ([255, 0, 171, 1, 2] : List Nat).length) →
      getLane ((ocl_pack [255, 0, 171, 1, 2] 3).1.getD
          ((ocl_pack [255, 0, 171, 1, 2] 3).1.length - 1) 0) p = 255) :=
  ocl_pack_roundtrip [255, 0, 171, 1, 2] 3 (by decide)

/-- C3: the transmitted checksum word of every chunk equals the XOR
accumulator seeded with `OCL_CHKS_INIT` folded over the emitted output
words in emission order; the block sent for a chunk is the two header
words, the packed words, and that checksum as the last word (so the
checksum is not folded into itself); and when the chunk's byte count is
not a multiple of 4 the final partially-filled word is still emitted
(and hence included in the fold). -/
theorem ocl_write_checksum (data : List Nat) (o bufalign offset runlen : Nat)
    (hB : ∀ x ∈ data, x < 256) :
    (ocl_pack data o).2 =
      (ocl_pack data o).1.foldl (fun a w => a ^^^ w) OCL_CHKS_INIT ∧
    ocl_chunk_block bufalign offset runlen data =
      [OCL_FLASH_BLOCK ||| runlen, offset % 2 ^ 32] ++
        (ocl_pack data (offset % bufalign)).1 ++
        [(ocl_pack data (offset % bufalign)).1.foldl (fun a w => a ^^^ w)
          OCL_CHKS_INIT] ∧
    ((o % 4 + data.length) % 4 ≠ 0 →
      (ocl_pack data o).1.length = (o % 4 + data.length) / 4 + 1) := by
  refine ⟨ocl_pack_chksum_eq data o, ?_, ?_⟩
  · unfold ocl_chunk_block
    rw [← ocl_pack_chksum_eq data (offset % bufalign)]
  · intro hnz
    rw [ocl_pack_length data o hB]
    omega

/-- Witness for C3: a 5-byte chunk (not a multiple of 4) at offset 10 with
alignment 8. -/
theorem ocl_write_checksum_witness :
    (ocl_pack [17, 34, 51, 68, 85] 2).2 =
      (ocl_pack [17, 34, 51, 68, 85] 2).1.foldl (fun a w => a ^^^ w)
        OCL_CHKS_INIT ∧
    ocl_chunk_block 8 10 5 [17, 34, 51, 68, 85] =
      [OCL_FLASH_BLOCK ||| 5, 10 % 2 ^ 32] ++
        (ocl_pack [17, 34, 51, 68, 85] (10 % 8)).1 ++
        [(ocl_pack [17, 34, 51, 68, 85] (10 % 8)).1.foldl (fun a w => a ^^^ w)
          OCL_CHKS_INIT] ∧
    ((2 % 4 + ([17, 34, 51, 68, 85] : List Nat).length) % 4 ≠ 0 →
      (ocl_pack [17, 34, 51, 68, 85] 2).1.length =
        (2 % 4 + ([17, 34, 51, 68, 85] : List Nat).length) / 4 + 1) :=
  ocl_write_checksum [17, 34, 51, 68, 85] 2 8 10 5 (by decide)

/-! ### Staging-buffer bound (claim C9) -/

lemma ocl_chunk_block_length (bufalign offset runlen : Nat) (data : List Nat)
    (hB : ∀ x ∈ data, x < 256) :
    (ocl_chunk_block bufalign offset runlen data).length =
      (offset % bufalign % 4 + data.length + 3) / 4 + 3 := by
  unfold ocl_chunk_block
  simp only [List.length_append, List.length_cons, List.length_nil]
  rw [ocl_pack_length data (offset % bufalign) hB]
  omega

lemma ocl_chunk_block_le (BL bufalign start : Nat) (runlen : Nat) (data : List Nat)
    (hval : start % bufalign + data.length ≤ BL) (h4 : BL % 4 = 0)
    (hB : ∀ x ∈ data, x < 256) :
    (ocl_chunk_block bufalign start runlen data).length ≤ BL / 4 + 3 := by
  rw [ocl_chunk_block_length bufalign start runlen data hB]
  have hq : start % bufalign % 4 ≤ start % bufalign := Nat.mod_le _ _
  omega

lemma ocl_write_loopF_sent (BL BA : Nat) (hBA : 1 ≤ BA) (hle : BA ≤ BL)
    (h4 : BL % 4 = 0) :
    ∀ fuel (data : List Nat) (offset : Nat) (lk : Link),
      (∀ x ∈ data, x < 256) → offset + data.length < 2 ^ 32 →
      ∀ blk ∈ (ocl_write_loopF BL BA fuel lk offset data).2.sent,
        blk ∈ lk.sent ∨ blk.length ≤ BL / 4 + 3 := by
  intro fuel
  induction fuel with
  | zero =>
      intro data offset lk hB hov blk hblk
      match data with
      | [] => exact Or.inl hblk
      | b :: rest => exact Or.inl hblk
  | succ fuel ih =>
      intro data offset lk hB hov blk hblk
      match data with
      | [] => exact Or.inl hblk
      | b :: rest =>
        have hrle : offset % BA ≤ offset := Nat.mod_le _ _
        obtain ⟨hr1, hr2, hr3⟩ :=
          ocl_runlen_spec BL BA offset (b :: rest).length hBA hle (by simp)
            (by simp at hov ⊢; omega)
        set R := ocl_runlen BL BA offset (b :: rest).length with hR
        set block := ocl_chunk_block BA offset R ((b :: rest).take R) with hblock
        have htlen : ((b :: rest).take R).length = R := by
          rw [List.length_take]; simp only [List.length_cons] at hr2 ⊢; omega
        have hbnd : block.length ≤ BL / 4 + 3 := by
          rw [hblock]
          apply ocl_chunk_block_le BL BA offset R ((b :: rest).take R) _ h4
            (fun x hx => hB x (List.mem_of_mem_take hx))
          rw [htlen]
          omega
        have hblk' : blk ∈ (ocl_write_loopF BL BA (fuel + 1) lk offset (b :: rest)).2.sent :=
          hblk
        rw [show ocl_write_loopF BL BA (fuel + 1) lk offset (b :: rest) =
            (if R = 0 then (.ok (), lk) else
              match embeddedice_send lk block with
              | (.fail c, lk1) => (.error (.TRANSPORT c), lk1)
              | (.ok, lk1) =>
                match embeddedice_handshake lk1 EICE_COMM_CTRL_WBIT 1000 with
                | (.fail c, lk2) => (.error (.TRANSPORT c), lk2)
                | (.ok, lk2) =>
                  match embeddedice_receive1 lk2 with
                  | (.fail c, _, lk3) => (.error (.TRANSPORT c), lk3)
                  | (.ok, w, lk3) =>
                    if w ≠ OCL_CMD_DONE then (.error .OPERATION_FAILED, lk3)
                    else ocl_write_loopF BL BA fuel lk3
                      ((offset + R) % 2 ^ 32) ((b :: rest).drop R)) from rfl] at hblk'
        rw [if_neg (by omega)] at hblk'
        simp only [embeddedice_send, embeddedice_handshake, embeddedice_receive1] at hblk'
        rcases hso : lk.env.sendOut.headD .ok with _ | c <;> simp only [hso] at hblk'
        case fail =>
          rcases List.mem_append.mp hblk' with hl | hr
          · exact Or.inl hl
          · exact Or.inr (List.mem_singleton.mp hr ▸ hbnd)
        case ok =>
        rcases hho : lk.env.hsOut.headD .ok with _ | c <;> simp only [hho] at hblk'
        case fail =>
          rcases List.mem_append.mp hblk' with hl | hr
          · exact Or.inl hl
          · exact Or.inr (List.mem_singleton.mp hr ▸ hbnd)
        case ok =>
        rcases hro : lk.env.recvOut.headD (.ok, 0) with ⟨o1, w⟩
        rcases o1 with _ | c
        case fail =>
          simp only [hro] at hblk'
          rcases List.mem_append.mp hblk' with hl | hr
          · exact Or.inl hl
          · exact Or.inr (List.mem_singleton.mp hr ▸ hbnd)
        case ok =>
        simp only [hro] at hblk'
        by_cases hw : w = OCL_CMD_DONE
        · rw [if_neg (by simpa using hw)] at hblk'
          have hov' : (offset + R) % 2 ^ 32 + ((b :: rest).drop R).length < 2 ^ 32 := by
            rw [List.length_drop, Nat.mod_eq_of_lt (by simp only [List.length_cons] at hov hr2 ⊢; omega)]
            simp only [List.length_cons] at hov hr2 ⊢
            omega
          have := ih ((b :: rest).drop R) ((offset + R) % 2 ^ 32) _
            (fun x hx => hB x (List.mem_of_mem_drop hx)) hov' blk hblk'
          rcases this with hl | hr
          · simp only at hl
            rcases List.mem_append.mp hl with hll | hlr
            · exact Or.inl hll
            · exact Or.inr (List.mem_singleton.mp hlr ▸ hbnd)
          · exact Or.inr hr
        · rw [if_pos (by simpa using hw)] at hblk'
          rcases List.mem_append.mp hblk' with hl | hr
          · exact Or.inl hl
          · exact Or.inr (List.mem_singleton.mp hr ▸ hbnd)

/-- C9: under the invariants guaranteed by a successful probe
(`bufalign` non-zero and at most `buflen`, `buflen` divisible by 4), every
block that `ocl_write` stores through the staging-buffer cursor and sends
— two header words, the packed payload words, and the trailing checksum
word of each chunk — fits in the allocated staging buffer of
`buflen / 4 + 3` words, so the sequential stores never run past it. -/
theorem ocl_write_staging_bound (bank : FlashBank) (ocl : OclPriv)
    (data : List Nat) (X : Nat) (lk : Link)
    (hBA : 1 ≤ ocl.bufalign) (hle : ocl.bufalign ≤ ocl.buflen)
    (h4 : ocl.buflen % 4 = 0) (hov : X + data.length < 2 ^ 32)
    (hB : ∀ x ∈ data, x < 256) :
    ∀ blk ∈ (ocl_write bank ocl data X lk).2.sent,
      blk ∈ lk.sent ∨ blk.length ≤ ocl.buflen / 4 + 3 := by
  intro blk hblk
  unfold ocl_write at hblk
  split at hblk
  · exact Or.inl hblk
  · split at hblk
    · exact Or.inl hblk
    · exact ocl_write_loopF_sent ocl.buflen ocl.bufalign hBA hle h4
        data.length data X lk hB hov blk hblk

/-- Witness for C9: the first block sent by a 6-byte write at `0x0FFE`
against a probed `buflen = 0x1000`, `bufalign = 0x1000` bank with a
cooperative transport satisfies the staging-buffer bound. -/
theorem ocl_write_staging_bound_witness :
    ((ocl_write bank16 ⟨0x1000, 0x1000⟩ [1, 2, 3, 4, 5, 6] 0x0FFE
        freshLink).2.sent.getD 0 []) ∈ freshLink.sent ∨
    ((ocl_write bank16 ⟨0x1000, 0x1000⟩ [1, 2, 3, 4, 5, 6] 0x0FFE
        freshLink).2.sent.getD 0 []).length ≤ 0x1000 / 4 + 3 :=
  ocl_write_staging_bound bank16 ⟨0x1000, 0x1000⟩ [1, 2, 3, 4, 5, 6] 0x0FFE
    freshLink (by decide) (by decide) (by decide) (by decide) (by decide)
    _ (by decide)

/-! ### Probe, erase and precondition claims (C4, C5, C6, C7, C8) -/

lemma ocl_probe_coop (bank : FlashBank) (ocl : OclPriv)
    (purge base size ns bufw : Nat) :
    ocl_probe bank ocl (probeLink purge OCL_CMD_DONE base size ns bufw) =
      (let bank3 : FlashBank :=
        { bank with base := base, size := size, num_sectors := ns }
       let ocl1 : OclPriv := ⟨bufw &&& 0xffff, bufw >>> 16⟩
       let lk7 : Link := ⟨⟨[], [], []⟩, [[OCL_PROBE]]⟩
       if ns = 0 then (.error .BANK_INVALID, bank3, ocl1, lk7)
       else if size % ns ≠ 0 then (.error .BANK_INVALID, bank3, ocl1, lk7)
       else
         let sectsize := size / ns
         let bank4 : FlashBank := { bank3 with
           sectors := (List.range ns).map fun i => ⟨i * sectsize, sectsize, -1, -1⟩ }
         let ocl2 := if ocl1.bufalign = 0 then { ocl1 with bufalign := 1 } else ocl1
         if ocl2.buflen = 0 then (.error .BANK_INVALID, bank4, ocl2, lk7)
         else if ocl2.bufalign > ocl2.buflen ∨ ocl2.buflen % ocl2.bufalign ≠ 0 then
           (.error .BANK_INVALID, bank4, ocl2, lk7)
         else if ocl2.buflen % 4 ≠ 0 then (.error .BANK_INVALID, bank4, ocl2, lk7)
         else (.ok (), bank4, ocl2, lk7)) := by
  simp [ocl_probe, probeLink, embeddedice_send, embeddedice_handshake,
    embeddedice_receive1, ocl_recv_word]

/-- C4: probe rejects invalid geometry with `BANK_INVALID` whenever any one
of the conditions is violated — sector count zero, size not divisible by
the sector count, buffer length zero, buffer alignment (with a reported `0`
replaced by the default `1`) exceeding or not dividing the buffer length,
or buffer length not divisible by 4. -/
theorem ocl_probe_validation (bank : FlashBank) (ocl : OclPriv)
    (purge base size ns bufw : Nat)
    (hviol : ns = 0 ∨ size % ns ≠ 0 ∨ bufw &&& 0xffff = 0 ∨
      (if bufw >>> 16 = 0 then 1 else bufw >>> 16) > bufw &&& 0xffff ∨
      (bufw &&& 0xffff) % (if bufw >>> 16 = 0 then 1 else bufw >>> 16) ≠ 0 ∨
      (bufw &&& 0xffff) % 4 ≠ 0) :
    (ocl_probe bank ocl (probeLink purge OCL_CMD_DONE base size ns bufw)).1 =
      .error .BANK_INVALID := by
  rw [ocl_probe_coop]
  simp only []
  split_ifs with h1 h2 h3 h4 h5 h6 h7 h8 h9 <;> try rfl
  · rcases hviol with h | h | h | h | h | h
    · exact absurd h h1
    · exact absurd h h2
    · exact absurd h h4
    · rw [if_pos h3] at h
      exact absurd (show bufw &&& 0xffff = 0 by omega) h4
    · rw [if_pos h3] at h
      exact h (Nat.mod_one _)
    · exact absurd h h6
  · push_neg at h8
    rcases hviol with h | h | h | h | h | h
    · exact absurd h h1
    · exact absurd h h2
    · exact absurd h h7
    · rw [if_neg h3] at h
      exact absurd h (Nat.not_lt.mpr h8.1)
    · rw [if_neg h3] at h
      exact h h8.2
    · exact absurd h h9

/-- Witness for C4: a probe reporting `sector_count = 0` is rejected. -/
theorem ocl_probe_validation_witness :
    (ocl_probe bank16 ⟨0, 0⟩ (probeLink 0 OCL_CMD_DONE 0 0x10000 0 0x10001000)).1 =
      .error .BANK_INVALID :=
  ocl_probe_validation bank16 ⟨0, 0⟩ 0 0 0x10000 0 0x10001000 (Or.inl rfl)

lemma range_sectors_flatten (n ss : Nat) :
    ((List.range n).map (fun i : Nat => List.range' (i * ss) ss)).flatten
      = List.range' 0 (n * ss) := by
  induction n with
  | zero => simp
  | succ n ih =>
      rw [List.range_succ, List.map_append, List.flatten_append, ih]
      simp only [List.map_cons, List.map_nil, List.flatten_cons, List.flatten_nil,
        List.append_nil]
      have hap := List.range'_append 0 (n * ss) ss 1
      simp only [one_mul, Nat.zero_add] at hap
      rw [hap]
      congr 1
      ring

/-- C8: a successful probe on a bank reporting total size `S` and sector
count `N` builds exactly `N` sectors of equal size `S / N`, sector `i` at
offset `i * (S / N)`, forming a contiguous non-overlapping partition of
`[0, S)`. -/
theorem ocl_probe_sector_partition (bank : FlashBank) (ocl : OclPriv)
    (purge base size ns bufw : Nat)
    (hns : ns ≠ 0) (hdvd : size % ns = 0) (hbl : bufw &&& 0xffff ≠ 0)
    (hba : (if bufw >>> 16 = 0 then 1 else bufw >>> 16) ≤ bufw &&& 0xffff)
    (hdv2 : (bufw &&& 0xffff) % (if bufw >>> 16 = 0 then 1 else bufw >>> 16) = 0)
    (hb4 : (bufw &&& 0xffff) % 4 = 0) :
    (ocl_probe bank ocl (probeLink purge OCL_CMD_DONE base size ns bufw)).1 = .ok () ∧
    (ocl_probe bank ocl
        (probeLink purge OCL_CMD_DONE base size ns bufw)).2.1.num_sectors = ns ∧
    (ocl_probe bank ocl
        (probeLink purge OCL_CMD_DONE base size ns bufw)).2.1.sectors =
      (List.range ns).map (fun i => ⟨i * (size / ns), size / ns, -1, -1⟩) ∧
    ns * (size / ns) = size ∧
    ((ocl_probe bank ocl
        (probeLink purge OCL_CMD_DONE base size ns bufw)).2.1.sectors.map
        (fun sec => List.range' sec.offset sec.size)).flatten
      = List.range' 0 size := by
  have hsize : ns * (size / ns) = size :=
    Nat.mul_div_cancel' (Nat.dvd_of_mod_eq_zero hdvd)
  rw [ocl_probe_coop]
  simp only []
  rw [if_neg hns, if_neg (not_not_intro hdvd)]
  by_cases hz : bufw >>> 16 = 0
  · rw [if_pos hz] at hba hdv2
    rw [if_pos hz, if_neg hbl,
      if_neg (show ¬(1 > bufw &&& 0xffff ∨ (bufw &&& 0xffff) % 1 ≠ 0) from by
        rintro (h | h)
        · exact hbl (by omega)
        · exact h (Nat.mod_one _)),
      if_neg (not_not_intro hb4)]
    refine ⟨rfl, rfl, rfl, hsize, ?_⟩
    show (((List.range ns).map fun i =>
        (⟨i * (size / ns), size / ns, -1, -1⟩ : FlashSector)).map
        (fun sec => List.range' sec.offset sec.size)).flatten = List.range' 0 size
    rw [List.map_map]
    rw [show ((fun sec : FlashSector => List.range' sec.offset sec.size) ∘
        fun i : Nat => (⟨i * (size / ns), size / ns, -1, -1⟩ : FlashSector))
        = fun i : Nat => List.range' (i * (size / ns)) (size / ns) from rfl]
    rw [range_sectors_flatten, hsize]
  · rw [if_neg hz] at hba hdv2
    rw [if_neg hz, if_neg hbl,
      if_neg (show ¬(bufw >>> 16 > bufw &&& 0xffff ∨
          (bufw &&& 0xffff) % (bufw >>> 16) ≠ 0) from by
        rintro (h | h)
        · exact absurd h (Nat.not_lt.mpr hba)
        · exact h hdv2),
      if_neg (not_not_intro hb4)]
    refine ⟨rfl, rfl, rfl, hsize, ?_⟩
    show (((List.range ns).map fun i =>
        (⟨i * (size / ns), size / ns, -1, -1⟩ : FlashSector)).map
        (fun sec => List.range' sec.offset sec.size)).flatten = List.range' 0 size
    rw [List.map_map]
    rw [show ((fun sec : FlashSector => List.range' sec.offset sec.size) ∘
        fun i : Nat => (⟨i * (size / ns), size / ns, -1, -1⟩ : FlashSector))
        = fun i : Nat => List.range' (i * (size / ns)) (size / ns) from rfl]
    rw [range_sectors_flatten, hsize]

/-- Witness for C8 at the spec's scenario: `total_size = 0x10000`,
`sector_count = 16` (and `buflen = bufalign = 0x1000`). -/
theorem ocl_probe_sector_partition_witness :
    (ocl_probe bank16 ⟨0, 0⟩
        (probeLink 0 OCL_CMD_DONE 0 0x10000 16 0x10001000)).1 = .ok () ∧
    (ocl_probe bank16 ⟨0, 0⟩
        (probeLink 0 OCL_CMD_DONE 0 0x10000 16 0x10001000)).2.1.num_sectors = 16 ∧
    (ocl_probe bank16 ⟨0, 0⟩
        (probeLink 0 OCL_CMD_DONE 0 0x10000 16 0x10001000)).2.1.sectors =
      (List.range 16).map (fun i => ⟨i * (0x10000 / 16), 0x10000 / 16, -1, -1⟩) ∧
    16 * (0x10000 / 16) = 0x10000 ∧
    ((ocl_probe bank16 ⟨0, 0⟩
        (probeLink 0 OCL_CMD_DONE 0 0x10000 16 0x10001000)).2.1.sectors.map
        (fun sec => List.range' sec.offset sec.size)).flatten
      = List.range' 0 0x10000 :=
  ocl_probe_sector_partition bank16 ⟨0, 0⟩ 0 0 0x10000 16 0x10001000
    (by decide) (by decide) (by decide) (by decide) (by decide) (by decide)

/-- Counterexample for C7: a probe whose reported geometry fails validation
(size 7 not divisible by 5 sectors) returns `BANK_INVALID` yet leaves the
received geometry populated (`num_sectors = 5`, and a non-zero buffer
descriptor), so a subsequent erase does not fail `BANK_NOT_PROBED` — it
runs to completion. -/
theorem ocl_probe_failure_keeps_geometry :
    (ocl_probe ⟨0, 0, 0, ([] : List FlashSector), .RUNNING⟩ ⟨0, 0⟩
        (probeLink 0 OCL_CMD_DONE 0 7 5 0x00100010)).1 = .error .BANK_INVALID ∧
    (ocl_probe ⟨0, 0, 0, ([] : List FlashSector), .RUNNING⟩ ⟨0, 0⟩
        (probeLink 0 OCL_CMD_DONE 0 7 5 0x00100010)).2.1.num_sectors = 5 ∧
    (ocl_erase (ocl_probe ⟨0, 0, 0, ([] : List FlashSector), .RUNNING⟩ ⟨0, 0⟩
          (probeLink 0 OCL_CMD_DONE 0 7 5 0x00100010)).2.1
        (ocl_probe ⟨0, 0, 0, ([] : List FlashSector), .RUNNING⟩ ⟨0, 0⟩
          (probeLink 0 OCL_CMD_DONE 0 7 5 0x00100010)).2.2.1 0 1 doneLink).1
      = .ok () :=
  ⟨rfl, rfl, rfl⟩

/-- C7 (amended): a probe that fails before the geometry words are received
— a transport error on the probe send, on the bounded handshake, or on the
response receive, or a loader response other than `OCL_CMD_DONE` — returns
the corresponding error and leaves both the Bank Model and the buffer
descriptor unchanged.  (A probe that fails a later geometry validation
check instead leaves the already-received geometry in place; see the
counterexample.)  The response receive draws from `recvOut.tail` because
the purge receive at line 247 consumes one word first. -/
theorem ocl_probe_early_failure_unchanged (bank : FlashBank) (ocl : OclPriv)
    (lk : Link) (c : Int) (w : Nat) :
    (lk.env.sendOut.headD .ok = .fail c →
      (ocl_probe bank ocl lk).1 = .error (.TRANSPORT c) ∧
      (ocl_probe bank ocl lk).2.1 = bank ∧
      (ocl_probe bank ocl lk).2.2.1 = ocl) ∧
    (lk.env.sendOut.headD .ok = .ok → lk.env.hsOut.headD .ok = .fail c →
      (ocl_probe bank ocl lk).1 = .error (.TRANSPORT c) ∧
      (ocl_probe bank ocl lk).2.1 = bank ∧
      (ocl_probe bank ocl lk).2.2.1 = ocl) ∧
    (lk.env.sendOut.headD .ok = .ok → lk.env.hsOut.headD .ok = .ok →
      (lk.env.recvOut.tail.headD (.ok, 0)).1 = .fail c →
      (ocl_probe bank ocl lk).1 = .error (.TRANSPORT c) ∧
      (ocl_probe bank ocl lk).2.1 = bank ∧
      (ocl_probe bank ocl lk).2.2.1 = ocl) ∧
    (lk.env.sendOut.headD .ok = .ok → lk.env.hsOut.headD .ok = .ok →
      lk.env.recvOut.tail.headD (.ok, 0) = (.ok, w) → w ≠ OCL_CMD_DONE →
      (ocl_probe bank ocl lk).1 = .error .OPERATION_FAILED ∧
      (ocl_probe bank ocl lk).2.1 = bank ∧
      (ocl_probe bank ocl lk).2.2.1 = ocl) := by
  refine ⟨?_, ?_, ?_, ?_⟩
  · intro hs
    simp only [ocl_probe, embeddedice_send, embeddedice_handshake,
      embeddedice_receive1, hs]
    refine ⟨?_, ?_, ?_⟩ <;> first | rfl | trivial
  · intro hs hh
    simp only [ocl_probe, embeddedice_send, embeddedice_handshake,
      embeddedice_receive1, hs, hh]
    refine ⟨?_, ?_, ?_⟩ <;> first | rfl | trivial
  · intro hs hh hr
    rcases hro : lk.env.recvOut.tail.headD (.ok, 0) with ⟨o1, wv⟩
    rw [hro] at hr
    simp only at hr
    subst hr
    simp only [ocl_probe, embeddedice_send, embeddedice_handshake,
      embeddedice_receive1, hs, hh, hro]
    refine ⟨?_, ?_, ?_⟩ <;> first | rfl | trivial
  · intro hs hh hr hw
    simp only [ocl_probe, embeddedice_send, embeddedice_handshake,
      embeddedice_receive1, hs, hh, hr]
    rw [if_pos hw]
    refine ⟨?_, ?_, ?_⟩ <;> first | rfl | trivial

/-- Witness for the amended C7: a failing probe send (code 2) and, on a
second transport, a response word `1` instead of the done sentinel — both
leave a fresh bank/priv untouched. -/
theorem ocl_probe_early_failure_unchanged_witness :
    ((ocl_probe bank16 ⟨7, 9⟩ ⟨⟨[.fail 2], [], []⟩, []⟩).1 =
        .error (.TRANSPORT 2) ∧
      (ocl_probe bank16 ⟨7, 9⟩ ⟨⟨[.fail 2], [], []⟩, []⟩).2.1 = bank16 ∧
      (ocl_probe bank16 ⟨7, 9⟩ ⟨⟨[.fail 2], [], []⟩, []⟩).2.2.1 = ⟨7, 9⟩) ∧
    ((ocl_probe bank16 ⟨7, 9⟩ ⟨⟨[], [], [(.ok, 0), (.ok, 1)]⟩, []⟩).1 =
        .error .OPERATION_FAILED ∧
      (ocl_probe bank16 ⟨7, 9⟩ ⟨⟨[], [], [(.ok, 0), (.ok, 1)]⟩, []⟩).2.1 =
        bank16 ∧
      (ocl_probe bank16 ⟨7, 9⟩ ⟨⟨[], [], [(.ok, 0), (.ok, 1)]⟩, []⟩).2.2.1 =
        ⟨7, 9⟩) :=
  ⟨(ocl_probe_early_failure_unchanged bank16 ⟨7, 9⟩
      ⟨⟨[.fail 2], [], []⟩, []⟩ 2 0).1 rfl,
   (ocl_probe_early_failure_unchanged bank16 ⟨7, 9⟩
      ⟨⟨[], [], [(.ok, 0), (.ok, 1)]⟩, []⟩ 2 1).2.2.2 rfl rfl rfl (by decide)⟩

/-- C5: when the preconditions pass, `ocl_erase` transmits exactly one
command packet: the single-word erase-all packet precisely when the range
spans the whole bank (`first = 0` and `last = num_sectors - 1`), and the
three-word erase-block packet `[opcode, first, last]` otherwise. -/
theorem ocl_erase_command_selection (bank : FlashBank) (ocl : OclPriv)
    (first last : Int) (lk : Link)
    (hns : bank.num_sectors ≠ 0) (hrun : bank.target_state = .RUNNING) :
    (ocl_erase bank ocl first last lk).2.sent =
      lk.sent ++
        [if first = 0 ∧ last = (bank.num_sectors : Int) - 1 then [OCL_ERASE_ALL]
         else [OCL_ERASE_BLOCK, u32ofInt first, u32ofInt last]] := by
  unfold ocl_erase
  rw [if_neg hns, if_neg (by simp [hrun])]
  rcases hso : lk.env.sendOut.headD .ok with _ | c <;>
    simp only [embeddedice_send, embeddedice_handshake, embeddedice_receive1, hso]
  case ok =>
  rcases hho : lk.env.hsOut.headD .ok with _ | c <;> simp only [hho]
  case ok =>
  rcases hro : lk.env.recvOut.headD (.ok, 0) with ⟨o1, w⟩
  rcases o1 with _ | c <;> simp only [hro]
  case ok => split <;> rfl

/-- Witness for C5 at the spec's scenario: `erase(0, 15)` on a 16-sector
bank emits the single erase-all packet. -/
theorem ocl_erase_command_selection_witness :
    (ocl_erase bank16 ⟨0x1000, 0x1000⟩ 0 15 doneLink).2.sent =
      doneLink.sent ++
        [if (0 : Int) = 0 ∧ (15 : Int) = (bank16.num_sectors : Int) - 1 then
          [OCL_ERASE_ALL]
         else [OCL_ERASE_BLOCK, u32ofInt 0, u32ofInt 15]] :=
  ocl_erase_command_selection bank16 ⟨0x1000, 0x1000⟩ 0 15 doneLink
    (by decide) rfl

/-- Counterexample for C6: `ocl_erase` does not check `buflen`/`bufalign`
at all — on a bank with a populated sector count but a zeroed buffer
descriptor it proceeds, performs transport I/O and succeeds, instead of
failing with the bank-not-probed error before any I/O. -/
theorem ocl_erase_no_buffer_check :
    (ocl_erase bank16 ⟨0, 0⟩ 0 15 doneLink).1 = .ok () ∧
    (ocl_erase bank16 ⟨0, 0⟩ 0 15 doneLink).2.sent = [[OCL_ERASE_ALL]] :=
  ⟨rfl, rfl⟩

/-- C6 (amended): `ocl_write` and the auto-probe check verify that
`buflen` and `bufalign` are both non-zero and fail with the bank-not-probed
error without any transport I/O when they are not; `ocl_erase` instead
verifies `num_sectors ≠ 0` for its bank-not-probed check; and both erase
and write verify — before any transport call — that the target is running,
failing fast with the target-not-running error otherwise.  Returning the
transport state unchanged shows no I/O was performed. -/
theorem ocl_precondition_checks (bank : FlashBank) (ocl : OclPriv)
    (data : List Nat) (offset : Nat) (first last : Int) (lk : Link) :
    (bank.num_sectors = 0 →
      ocl_erase bank ocl first last lk = (.error .BANK_NOT_PROBED, lk)) ∧
    (bank.num_sectors ≠ 0 → bank.target_state ≠ .RUNNING →
      ocl_erase bank ocl first last lk = (.error .TARGET_NOT_RUNNING, lk)) ∧
    (ocl.buflen = 0 ∨ ocl.bufalign = 0 →
      ocl_write bank ocl data offset lk = (.error .BANK_NOT_PROBED, lk)) ∧
    (¬(ocl.buflen = 0 ∨ ocl.bufalign = 0) → bank.target_state ≠ .RUNNING →
      ocl_write bank ocl data offset lk = (.error .TARGET_NOT_RUNNING, lk)) ∧
    (ocl.buflen = 0 ∨ ocl.bufalign = 0 →
      ocl_auto_probe ocl = .error .BANK_NOT_PROBED) := by
  refine ⟨?_, ?_, ?_, ?_, ?_⟩
  · intro h
    unfold ocl_erase
    rw [if_pos h]
  · intro h1 h2
    unfold ocl_erase
    rw [if_neg h1, if_pos h2]
  · intro h
    unfold ocl_write
    rw [if_pos h]
  · intro h1 h2
    unfold ocl_write
    rw [if_neg h1, if_pos h2]
  · intro h
    unfold ocl_auto_probe
    rw [if_pos h]

/-- Witness for the amended C6: a halted target and an unprobed buffer
descriptor at concrete values. -/
theorem ocl_precondition_checks_witness :
    (ocl_erase ⟨0, 0, 0, ([] : List FlashSector), .RUNNING⟩ ⟨0, 0⟩ 0 1 freshLink
      = (.error .BANK_NOT_PROBED, freshLink)) ∧
    (ocl_erase ⟨0, 0x10000, 16, ([] : List FlashSector), .HALTED⟩ ⟨0, 0⟩ 0 1
        freshLink = (.error .TARGET_NOT_RUNNING, freshLink)) ∧
    (ocl_write ⟨0, 0x10000, 16, ([] : List FlashSector), .RUNNING⟩ ⟨0, 4⟩ [1] 0
        freshLink = (.error .BANK_NOT_PROBED, freshLink)) ∧
    (ocl_write ⟨0, 0x10000, 16, ([] : List FlashSector), .HALTED⟩ ⟨4, 4⟩ [1] 0
        freshLink = (.error .TARGET_NOT_RUNNING, freshLink)) ∧
    (ocl_auto_probe ⟨4, 0⟩ = .error .BANK_NOT_PROBED) := by
  have h1 := (ocl_precondition_checks ⟨0, 0, 0, ([] : List FlashSector), .RUNNING⟩
    ⟨0, 0⟩ [1] 0 0 1 freshLink).1 rfl
  have h2 := (ocl_precondition_checks ⟨0, 0x10000, 16, ([] : List FlashSector),
    .HALTED⟩ ⟨0, 0⟩ [1] 0 0 1 freshLink).2.1 (by decide) (by decide)
  have h3 := (ocl_precondition_checks ⟨0, 0x10000, 16, ([] : List FlashSector),
    .RUNNING⟩ ⟨0, 4⟩ [1] 0 0 1 freshLink).2.2.1 (Or.inl rfl)
  have h4 := (ocl_precondition_checks ⟨0, 0x10000, 16, ([] : List FlashSector),
    .HALTED⟩ ⟨4, 4⟩ [1] 0 0 1 freshLink).2.2.2.1 (by decide) (by decide)
  have h5 := (ocl_precondition_checks ⟨0, 0x10000, 16, ([] : List FlashSector),
    .RUNNING⟩ ⟨4, 0⟩ [1] 0 0 1 freshLink).2.2.2.2 (Or.inr rfl)
  exact ⟨h1, h2, h3, h4, h5⟩
